import Mathlib

/-!
Verification of the alignment-and-classification engine of
`examples/nlp/duplex_text_normalization/analyze_errors.py`.

The development shallowly embeds the Python source:

* `lcsLen` / `lcs` embed the function `lcs` (lines 43-95): the dynamic
  programming table `L` and the backtracking reconstruction loop.
* `findFrom` / `markLoop` / `alignMasks` embed the greedy mask-marking loop
  of `ErrorCase.__init__` (lines 122-135).
* `get_spans` embeds `ErrorCase.get_spans` (lines 249-274); the empty mask
  makes the Python raise `IndexError` at line 262 (`tokens_highlight[0]`),
  embedded as `none`.
* `removePunctuation`, `pyStrip`, `replace_s_with_z`, `classify` embed the
  normalization helper `_remove_punctuation` (lines 294-306) and the ordered
  classification chain (lines 327-349, identical to lines 166-188).
* `classifiedPairs` embeds the span-pair selection of the classification loop
  in `ErrorCase.__init__` (lines 152-162).

Python machine strings are embedded as `List Char`; fallible code returns
`Option`/`Except`.
-/

section LCSDef

variable {α : Type} [DecidableEq α]

/-- One row update of the LCS dynamic-programming table.  Given row `i` of the
table (`prev`) and the element `x = X[i]?`, computes row `i+1`; this realizes
the recurrence of lines 58-65 of the source:
`L[i][j] = L[i-1][j-1] + 1` when the tokens match, else
`max(L[i-1][j], L[i][j-1])`, with `L[i][0] = 0`. -/
def lcsNextRow (Y : List α) (x : Option α) (prev : Nat → Nat) : Nat → Nat
  | 0 => 0
  | j + 1 => if x = Y[j]? then prev j + 1 else max (prev (j + 1)) (lcsNextRow Y x prev j)

/-- Row `i` of the LCS table of lines 53-65 (row 0 is all zeros, line 60-61). -/
def lcsLenRow (X Y : List α) : Nat → Nat → Nat
  | 0 => fun _ => 0
  | i + 1 => lcsNextRow Y X[i]? (lcsLenRow X Y i)

/-- `lcsLen X Y i j` is the table entry `L[i][j]` built by the nested loops at
lines 58-65: the LCS length of `X[0..i-1]` and `Y[0..j-1]`. -/
def lcsLen (X Y : List α) (i j : Nat) : Nat := lcsLenRow X Y i j

/-- The backtracking loop of lines 76-93, reconstructing the LCS from the
bottom-right corner of the table.  The loop decreases `i + j` at every
iteration, so the extra `fuel` argument (instantiated with `|X| + |Y|`) is
only a structurally decreasing counter and never runs out.  On a token match
the token is emitted (the Python stores it into slot `index - 1`, i.e. in
front of everything already stored, which the recursion renders as appending
the match after the recursively built prefix); otherwise the loop moves up
(`i -= 1`) exactly when `L[i-1][j] > L[i][j-1]` and moves left (`j -= 1`)
otherwise. -/
def lcsBackAux (X Y : List α) : Nat → Nat → Nat → List α
  | 0, _, _ => []
  | _ + 1, 0, _ => []
  | _ + 1, _ + 1, 0 => []
  | fuel + 1, i + 1, j + 1 =>
    if X[i]? = Y[j]? then
      lcsBackAux X Y fuel i j ++ (X[i]?).toList
    else if lcsLen X Y i (j + 1) > lcsLen X Y (i + 1) j then
      lcsBackAux X Y fuel i (j + 1)
    else
      lcsBackAux X Y fuel (i + 1) j

/-- `lcs` (lines 43-95): builds the DP table and backtracks from `L[m][n]`.
The Python preallocates an array of size `L[m][n]` and fills it right to
left; since backtracking performs exactly `L[m][n]` matches (proved below),
the returned list is that array. -/
def lcs (X Y : List α) : List α := lcsBackAux X Y (X.length + Y.length) X.length Y.length

lemma lcsLen_zero_left (X Y : List α) (j : Nat) : lcsLen X Y 0 j = 0 := rfl

lemma lcsLen_zero_right (X Y : List α) (i : Nat) : lcsLen X Y i 0 = 0 := by
  cases i <;> rfl

lemma lcsLen_succ_succ (X Y : List α) (i j : Nat) :
    lcsLen X Y (i + 1) (j + 1) =
      if X[i]? = Y[j]? then lcsLen X Y i j + 1
      else max (lcsLen X Y i (j + 1)) (lcsLen X Y (i + 1) j) := rfl

/-- Invariant of the backtracking loop: for in-range `i`, `j` (and enough
fuel) the reconstructed list is a subsequence of both prefixes and its length
is the table entry `L[i][j]`. -/
lemma lcsBackAux_spec (X Y : List α) :
    ∀ fuel i j, i + j ≤ fuel → i ≤ X.length → j ≤ Y.length →
      List.Sublist (lcsBackAux X Y fuel i j) (X.take i) ∧
      List.Sublist (lcsBackAux X Y fuel i j) (Y.take j) ∧
      (lcsBackAux X Y fuel i j).length = lcsLen X Y i j := by
  intro fuel
  induction fuel with
  | zero =>
    intro i j hij _ _
    have hi : i = 0 := by omega
    have hj : j = 0 := by omega
    subst hi; subst hj
    exact ⟨List.nil_sublist _, List.nil_sublist _, rfl⟩
  | succ fuel ih =>
    intro i j hij hX hY
    match i, j with
    | 0, j =>
      refine ⟨List.nil_sublist _, List.nil_sublist _, ?_⟩
      simp [lcsBackAux, lcsLen_zero_left]
    | i + 1, 0 =>
      refine ⟨List.nil_sublist _, List.nil_sublist _, ?_⟩
      simp [lcsBackAux, lcsLen_zero_right]
    | i + 1, j + 1 =>
      have hX' : i ≤ X.length := by omega
      have hY' : j ≤ Y.length := by omega
      by_cases h : X[i]? = Y[j]?
      · have ihm := ih i j (by omega) hX' hY'
        refine ⟨?_, ?_, ?_⟩
        · rw [lcsBackAux, if_pos h, List.take_succ]
          exact List.Sublist.append ihm.1 (List.Sublist.refl _)
        · rw [lcsBackAux, if_pos h, List.take_succ, h]
          exact List.Sublist.append ihm.2.1 (List.Sublist.refl _)
        · rw [lcsBackAux, if_pos h, lcsLen_succ_succ, if_pos h]
          have hlt : i < X.length := by omega
          simp [List.getElem?_eq_getElem hlt, ihm.2.2]
      · by_cases h2 : lcsLen X Y i (j + 1) > lcsLen X Y (i + 1) j
        · have ihm := ih i (j + 1) (by omega) hX' hY
          refine ⟨?_, ?_, ?_⟩
          · rw [lcsBackAux, if_neg h, if_pos h2]
            exact ihm.1.trans (by rw [List.take_succ]; exact List.sublist_append_left _ _)
          · rw [lcsBackAux, if_neg h, if_pos h2]
            exact ihm.2.1
          · rw [lcsBackAux, if_neg h, if_pos h2, lcsLen_succ_succ, if_neg h,
              Nat.max_eq_left (Nat.le_of_lt h2)]
            exact ihm.2.2
        · have ihm := ih (i + 1) j (by omega) hX hY'
          refine ⟨?_, ?_, ?_⟩
          · rw [lcsBackAux, if_neg h, if_neg h2]
            exact ihm.1
          · rw [lcsBackAux, if_neg h, if_neg h2]
            exact ihm.2.1.trans (by rw [List.take_succ]; exact List.sublist_append_left _ _)
          · rw [lcsBackAux, if_neg h, if_neg h2, lcsLen_succ_succ, if_neg h,
              Nat.max_eq_right (Nat.le_of_not_lt h2)]
            exact ihm.2.2

lemma lcs_sublist_left (X Y : List α) : List.Sublist (lcs X Y) X := by
  have h := (lcsBackAux_spec X Y (X.length + Y.length) X.length Y.length le_rfl le_rfl le_rfl).1
  rwa [List.take_length] at h

lemma lcs_sublist_right (X Y : List α) : List.Sublist (lcs X Y) Y := by
  have h := (lcsBackAux_spec X Y (X.length + Y.length) X.length Y.length le_rfl le_rfl le_rfl).2.1
  rwa [List.take_length] at h

lemma lcs_length_eq (X Y : List α) : (lcs X Y).length = lcsLen X Y X.length Y.length :=
  (lcsBackAux_spec X Y (X.length + Y.length) X.length Y.length le_rfl le_rfl le_rfl).2.2

/-- Claim C1: for every pair of token lists `X` and `Y`, `lcs X Y` is a true
subsequence of both `X` and `Y`, and its length equals the dynamic-programming
table value `L[|X|][|Y|]` computed by the recurrence
`L[i][j] = L[i-1][j-1] + 1` on a token match and
`max (L[i-1][j]) (L[i][j-1])` otherwise (with zero borders). -/
theorem lcs_common_subsequence_and_table_length (X Y : List α) :
    List.Sublist (lcs X Y) X ∧ List.Sublist (lcs X Y) Y ∧
    (lcs X Y).length = lcsLen X Y X.length Y.length ∧
    (∀ i j, lcsLen X Y (i + 1) (j + 1) =
      if X[i]? = Y[j]? then lcsLen X Y i j + 1
      else max (lcsLen X Y i (j + 1)) (lcsLen X Y (i + 1) j)) ∧
    (∀ j, lcsLen X Y 0 j = 0) ∧ (∀ i, lcsLen X Y i 0 = 0) :=
  ⟨lcs_sublist_left X Y, lcs_sublist_right X Y, lcs_length_eq X Y,
    fun i j => lcsLen_succ_succ X Y i j, fun j => lcsLen_zero_left X Y j,
    fun i => lcsLen_zero_right X Y i⟩

lemma lcsBackAux_self (X : List α) :
    ∀ fuel i, i + i ≤ fuel → i ≤ X.length → lcsBackAux X X fuel i i = X.take i := by
  intro fuel
  induction fuel with
  | zero =>
    intro i hi _
    have : i = 0 := by omega
    subst this
    rfl
  | succ fuel ih =>
    intro i hi hX
    match i with
    | 0 => rfl
    | i + 1 =>
      rw [lcsBackAux, if_pos rfl, ih i (by omega) (by omega), List.take_succ]

/-- Claim C10: for every token list `X`, `lcs X X` returns `X` itself. -/
theorem lcs_self (X : List α) : lcs X X = X := by
  have h := lcsBackAux_self X (X.length + X.length) X.length le_rfl le_rfl
  rw [lcs, h, List.take_length]

end LCSDef

section Masks

variable {α : Type} [DecidableEq α]

/-- Helper for the `while` searches of lines 128-131 of `ErrorCase.__init__`:
walks the remaining tokens `l` (which is `tokens.drop idx`), returning the
absolute index of the first occurrence of `tok`, or `none` when the Python
would fall off the end of the list (`IndexError`). -/
def findFromAux (tok : α) : List α → Nat → Option Nat
  | [], _ => none
  | c :: rest, idx => if c = tok then some idx else findFromAux tok rest (idx + 1)

/-- `while tokens[idx] != token: idx += 1` (lines 128-131): first index
`k ≥ idx` with `tokens[k] == tok`. -/
def findFrom (tokens : List α) (tok : α) (idx : Nat) : Option Nat :=
  findFromAux tok (tokens.drop idx) idx

/-- The greedy marking loop of lines 126-135: for each LCS token, find its
first unconsumed occurrence in the target and in the prediction, mark both
mask positions `true` and resume searching after them. -/
def markLoop (tToks pToks : List α) :
    List α → Nat → Nat → List Bool → List Bool → Option (List Bool × List Bool)
  | [], _, _, tMask, pMask => some (tMask, pMask)
  | tok :: rest, tIdx, pIdx, tMask, pMask =>
    match findFrom tToks tok tIdx, findFrom pToks tok pIdx with
    | some ti, some pi2 =>
      markLoop tToks pToks rest (ti + 1) (pi2 + 1) (tMask.set ti true) (pMask.set pi2 true)
    | _, _ => none

/-- Lines 122-135 of `ErrorCase.__init__`: compute the LCS of the target and
prediction tokens and greedily mark its occurrences in the two all-`false`
masks. -/
def alignMasks (target pred : List α) : Option (List Bool × List Bool) :=
  markLoop target pred (lcs target pred) 0 0
    (List.replicate target.length false) (List.replicate pred.length false)

lemma findFromAux_greedy :
    ∀ (l : List α) (tok : α) (rest : List α) (idx : Nat),
      List.Sublist (tok :: rest) l →
      ∃ d, findFromAux tok l idx = some (idx + d) ∧ d < l.length ∧
        List.Sublist rest (l.drop (d + 1)) := by
  intro l
  induction l with
  | nil =>
    intro tok rest idx h
    exact absurd h (by simp)
  | cons c l' ih =>
    intro tok rest idx h
    by_cases hc : c = tok
    · refine ⟨0, by simp [findFromAux, hc], by simp, ?_⟩
      subst hc
      cases h with
      | cons _ h' => exact (List.sublist_cons_self c rest).trans h'
      | cons₂ _ h' => exact h'
    · cases h with
      | cons _ h' =>
        obtain ⟨d, hf, hd, hs⟩ := ih tok rest (idx + 1) h'
        refine ⟨d + 1, ?_, by simpa using Nat.succ_lt_succ hd, hs⟩
        rw [findFromAux, if_neg hc, hf]
        exact congrArg some (by omega)
      | cons₂ _ _ => exact absurd rfl hc

lemma findFrom_greedy (tokens : List α) (tok : α) (rest : List α) (idx : Nat)
    (h : List.Sublist (tok :: rest) (tokens.drop idx)) :
    ∃ k, findFrom tokens tok idx = some k ∧ idx ≤ k ∧ k < tokens.length ∧
      List.Sublist rest (tokens.drop (k + 1)) := by
  obtain ⟨d, hf, hd, hs⟩ := findFromAux_greedy (tokens.drop idx) tok rest idx h
  rw [List.length_drop] at hd
  refine ⟨idx + d, hf, by omega, by omega, ?_⟩
  rw [List.drop_drop] at hs
  have : idx + (d + 1) = idx + d + 1 := by omega
  rwa [this] at hs

lemma count_set_true :
    ∀ (m : List Bool) (k : Nat), m[k]? = some false →
      (m.set k true).count true = m.count true + 1 := by
  intro m
  induction m with
  | nil => intro k h; simp at h
  | cons b m' ih =>
    intro k h
    cases k with
    | zero =>
      simp only [List.getElem?_cons_zero, Option.some.injEq] at h
      subst h
      simp [List.count_cons]
    | succ k =>
      simp only [List.getElem?_cons_succ] at h
      simp only [List.set_cons_succ, List.count_cons, ih k h]
      omega

/-- All mask entries from position `idx` on are still unmarked. -/
def allFalseFrom (m : List Bool) (idx : Nat) : Prop :=
  ∀ k, idx ≤ k → k < m.length → m[k]? = some false

lemma allFalseFrom_replicate (n : Nat) : allFalseFrom (List.replicate n false) 0 := by
  intro k _ hk
  simp only [List.length_replicate] at hk
  simp [List.getElem?_replicate, hk]

lemma allFalseFrom_set (m : List Bool) (idx ti : Nat) (h : allFalseFrom m idx) (hti : idx ≤ ti) :
    allFalseFrom (m.set ti true) (ti + 1) := by
  intro k hk hlen
  rw [List.getElem?_set_ne (by omega)]
  exact h k (by omega) (by rwa [List.length_set] at hlen)

lemma markLoop_spec (tToks pToks : List α) :
    ∀ (l : List α) (tIdx pIdx : Nat) (tMask pMask : List Bool),
      List.Sublist l (tToks.drop tIdx) → List.Sublist l (pToks.drop pIdx) →
      tMask.length = tToks.length → pMask.length = pToks.length →
      allFalseFrom tMask tIdx → allFalseFrom pMask pIdx →
      ∃ tm pm, markLoop tToks pToks l tIdx pIdx tMask pMask = some (tm, pm) ∧
        tm.count true = tMask.count true + l.length ∧
        pm.count true = pMask.count true + l.length := by
  intro l
  induction l with
  | nil =>
    intro tIdx pIdx tMask pMask _ _ _ _ _ _
    exact ⟨tMask, pMask, rfl, by simp, by simp⟩
  | cons tok rest ih =>
    intro tIdx pIdx tMask pMask hT hP hTlen hPlen hTf hPf
    obtain ⟨tk, htf, htle, htlt, hts⟩ := findFrom_greedy tToks tok rest tIdx hT
    obtain ⟨pk, hpf, hple, hplt, hps⟩ := findFrom_greedy pToks tok rest pIdx hP
    have htm : tMask[tk]? = some false := hTf tk htle (by omega)
    have hpm : pMask[pk]? = some false := hPf pk hple (by omega)
    obtain ⟨tm, pm, hrec, hcm, hcp⟩ :=
      ih (tk + 1) (pk + 1) (tMask.set tk true) (pMask.set pk true) hts hps
        (by rw [List.length_set]; exact hTlen) (by rw [List.length_set]; exact hPlen)
        (allFalseFrom_set _ _ _ hTf htle) (allFalseFrom_set _ _ _ hPf hple)
    refine ⟨tm, pm, ?_, ?_, ?_⟩
    · rw [markLoop, htf, hpf]
      exact hrec
    · rw [hcm, count_set_true tMask tk htm]
      simp only [List.length_cons]
      omega
    · rw [hcp, count_set_true pMask pk hpm]
      simp only [List.length_cons]
      omega

/-- Claim C2: the greedy marking of `ErrorCase.__init__` (lines 122-135)
always succeeds, and the number of `true` entries in the target mask equals
the number of `true` entries in the prediction mask, both being the LCS
length (the DP table value `L[|target|][|pred|]`). -/
theorem alignMasks_true_counts_eq_lcs_length (target pred : List α) :
    ∃ tm pm, alignMasks target pred = some (tm, pm) ∧
      tm.count true = (lcs target pred).length ∧
      pm.count true = (lcs target pred).length ∧
      (lcs target pred).length = lcsLen target pred target.length pred.length := by
  obtain ⟨tm, pm, h, hc1, hc2⟩ :=
    markLoop_spec target pred (lcs target pred) 0 0
      (List.replicate target.length false) (List.replicate pred.length false)
      (by rw [List.drop_zero]; exact lcs_sublist_left target pred)
      (by rw [List.drop_zero]; exact lcs_sublist_right target pred)
      (by simp) (by simp)
      (allFalseFrom_replicate _) (allFalseFrom_replicate _)
  refine ⟨tm, pm, h, ?_, ?_, lcs_length_eq target pred⟩
  · rw [hc1, List.count_replicate]
    simp
  · rw [hc2, List.count_replicate]
    simp

end Masks

section Spans

/-- A span as produced by `ErrorCase.get_spans`: start index, inclusive end
index, and the matched/highlight flag of the run. -/
abbrev TokSpan : Type := Nat × Nat × Bool

/-- The `for idx in range(nb_tokens)` loop of lines 263-273.  The walked list
`l` is `mask.drop idx`, so its head is `mask[idx]`; `n` is `nb_tokens`.
When `idx == nb_tokens - 1` the loop body appends the final span(s) and the
loop terminates; otherwise a changed flag closes the current run at
`idx - 1` and opens a new one at `idx`. -/
def getSpansGo (n : Nat) : List Bool → Nat → Nat → Bool → List TokSpan → List TokSpan
  | [], _, _, _, spans => spans
  | b :: rest, idx, curStart, curVal, spans =>
    if idx = n - 1 then
      if b ≠ curVal then
        spans ++ [(curStart, n - 2, curVal), (n - 1, n - 1, b)]
      else
        spans ++ [(curStart, n - 1, curVal)]
    else
      if b ≠ curVal then
        getSpansGo n rest (idx + 1) idx b (spans ++ [(curStart, idx - 1, curVal)])
      else
        getSpansGo n rest (idx + 1) curStart curVal spans

/-- `ErrorCase.get_spans` (lines 249-274).  On the empty mask the Python
raises `IndexError` at line 262 (`tokens_highlight[0]`), embedded as `none`;
otherwise the run-length loop starts at index 0 with
`cur_bool_val = tokens_highlight[0]`. -/
def get_spans (mask : List Bool) : Option (List TokSpan) :=
  match mask with
  | [] => none
  | b :: _ => some (getSpansGo mask.length mask 0 0 b [])

/-- Well-formedness of a span list relative to length `n`, starting at index
`start`, with `prev` the flag of the span just before (if any): each span
begins exactly where the previous one ended plus one, has `start ≤ end`,
alternates its flag with its predecessor's, and the last span ends at `n - 1`
(the empty tail requires `start = n`). -/
def spansChain (n : Nat) : Nat → Option Bool → List TokSpan → Bool
  | start, _, [] => start == n
  | start, prev, (s, e, b) :: rest =>
    (s == start) && decide (s ≤ e) && (prev != some b) && spansChain n (e + 1) (some b) rest

lemma getSpansGo_append (n : Nat) :
    ∀ (l : List Bool) (idx curStart : Nat) (curVal : Bool) (s1 s2 : List TokSpan),
      getSpansGo n l idx curStart curVal (s1 ++ s2) =
        s1 ++ getSpansGo n l idx curStart curVal s2 := by
  intro l
  induction l with
  | nil => intro idx curStart curVal s1 s2; simp [getSpansGo]
  | cons b rest ih =>
    intro idx curStart curVal s1 s2
    by_cases h1 : idx = n - 1
    · by_cases h2 : b ≠ curVal <;> simp [getSpansGo, h1, h2]
    · by_cases h2 : b ≠ curVal
      · rw [getSpansGo, if_neg h1, if_pos h2, List.append_assoc,
          ih (idx + 1) idx b s1 (s2 ++ [(curStart, idx - 1, curVal)]),
          getSpansGo, if_neg h1, if_pos h2]
      · rw [getSpansGo, if_neg h1, if_neg h2, ih (idx + 1) curStart curVal s1 s2,
          getSpansGo, if_neg h1, if_neg h2]

lemma getSpansGo_acc (n : Nat) (l : List Bool) (idx curStart : Nat) (curVal : Bool)
    (spans : List TokSpan) :
    getSpansGo n l idx curStart curVal spans = spans ++ getSpansGo n l idx curStart curVal [] := by
  conv_lhs => rw [← List.append_nil spans]
  rw [getSpansGo_append]

lemma getSpansGo_chain (mask : List Bool) :
    ∀ (l : List Bool) (idx curStart : Nat) (curVal : Bool) (prev : Option Bool),
      l = mask.drop idx → idx < mask.length → curStart ≤ idx →
      mask[curStart]? = some curVal →
      (prev != some curVal) = true →
      spansChain mask.length curStart prev (getSpansGo mask.length l idx curStart curVal []) =
        true := by
  intro l
  induction l with
  | nil =>
    intro idx curStart curVal prev hdrop hidx _ _ _
    have hlen := List.length_drop idx mask
    rw [← hdrop] at hlen
    simp only [List.length_nil] at hlen
    omega
  | cons b rest ih =>
    intro idx curStart curVal prev hdrop hidx hcs hmcs hprev
    have hdrop' : mask.drop idx = b :: rest := hdrop.symm
    have hb : mask[idx]? = some b := by
      rw [List.drop_eq_getElem_cons hidx] at hdrop'
      simp only [List.cons.injEq] at hdrop'
      rw [List.getElem?_eq_getElem hidx, hdrop'.1]
    have hrest : rest = mask.drop (idx + 1) := by
      rw [← List.tail_drop, hdrop', List.tail_cons]
    by_cases h1 : idx = mask.length - 1
    · by_cases h2 : b ≠ curVal
      · have hne : curStart ≠ idx := by
          intro hEq
          rw [hEq, hb] at hmcs
          exact h2 (Option.some.inj hmcs)
        have hlt : curStart < idx := by omega
        have e1 : mask.length - 2 + 1 = mask.length - 1 := by omega
        have e2 : mask.length - 1 + 1 = mask.length := by omega
        have hcs2 : curStart ≤ mask.length - 2 := by omega
        have hcb : curVal ≠ b := fun hEq => h2 hEq.symm
        rw [getSpansGo, if_pos h1, if_pos h2]
        simp only [List.nil_append, spansChain, e1, e2]
        simp [hprev, hcs2, hcb]
      · push_neg at h2
        have e2 : mask.length - 1 + 1 = mask.length := by omega
        have hle : curStart ≤ mask.length - 1 := by omega
        rw [getSpansGo, if_pos h1, if_neg (by simp [h2])]
        simp only [List.nil_append, spansChain, e2]
        simp [hprev, hle]
    · have hidx' : idx + 1 < mask.length := by omega
      by_cases h2 : b ≠ curVal
      · have hne : curStart ≠ idx := by
          intro hEq
          rw [hEq, hb] at hmcs
          exact h2 (Option.some.inj hmcs)
        have hlt : curStart < idx := by omega
        have e1 : idx - 1 + 1 = idx := by omega
        have hle1 : curStart ≤ idx - 1 := by omega
        have hcb : curVal ≠ b := fun hEq => h2 hEq.symm
        have hch := ih (idx + 1) idx b (some curVal) hrest hidx' (by omega) hb (by simp [hcb])
        rw [getSpansGo, if_neg h1, if_pos h2, getSpansGo_acc]
        simp only [List.nil_append, List.cons_append, spansChain, e1]
        simp [hprev, hle1, hch]
      · push_neg at h2
        rw [getSpansGo, if_neg h1, if_neg (by simp [h2])]
        subst h2
        exact ih (idx + 1) curStart b prev hrest hidx' (by omega) hmcs hprev

lemma spansChain_le (n : Nat) :
    ∀ (l : List TokSpan) (start : Nat) (prev : Option Bool),
      spansChain n start prev l = true → start ≤ n := by
  intro l
  induction l with
  | nil =>
    intro start prev h
    simp only [spansChain, beq_iff_eq] at h
    omega
  | cons sp rest ih =>
    intro start prev h
    obtain ⟨s, e, b⟩ := sp
    simp only [spansChain, Bool.and_eq_true, beq_iff_eq, decide_eq_true_eq] at h
    have := ih (e + 1) (some b) h.2
    omega

lemma spansChain_mem_start (n : Nat) :
    ∀ (l : List TokSpan) (start : Nat) (prev : Option Bool),
      spansChain n start prev l = true → ∀ sp ∈ l, start ≤ sp.1 := by
  intro l
  induction l with
  | nil => intro start prev _ sp hsp; simp at hsp
  | cons hd rest ih =>
    intro start prev h sp hsp
    obtain ⟨s, e, b⟩ := hd
    simp only [spansChain, Bool.and_eq_true, beq_iff_eq, decide_eq_true_eq] at h
    rcases List.mem_cons.mp hsp with hEq | hmem
    · rw [hEq]
      omega
    · have := ih (e + 1) (some b) h.2 sp hmem
      omega

lemma spansChain_countP_one (n : Nat) :
    ∀ (l : List TokSpan) (start : Nat) (prev : Option Bool),
      spansChain n start prev l = true →
      ∀ i, start ≤ i → i < n →
        l.countP (fun sp => decide (sp.1 ≤ i ∧ i ≤ sp.2.1)) = 1 := by
  intro l
  induction l with
  | nil =>
    intro start prev h i hi hin
    simp only [spansChain, beq_iff_eq] at h
    omega
  | cons hd rest ih =>
    intro start prev h i hi hin
    obtain ⟨s, e, b⟩ := hd
    simp only [spansChain, Bool.and_eq_true, beq_iff_eq, decide_eq_true_eq] at h
    obtain ⟨⟨⟨hs, hse⟩, _⟩, hrest⟩ := h
    by_cases hie : i ≤ e
    · rw [List.countP_cons_of_pos _ _ (by simp; omega)]
      have hzero : rest.countP (fun sp => decide (sp.1 ≤ i ∧ i ≤ sp.2.1)) = 0 := by
        rw [List.countP_eq_zero]
        intro sp hsp
        have := spansChain_mem_start n rest (e + 1) (some b) hrest sp hsp
        simp only [decide_eq_true_eq]
        omega
      omega
    · rw [List.countP_cons_of_neg _ _ (by simp; omega)]
      exact ih (e + 1) (some b) hrest i (by omega) hin

/-- Claim C3: for every non-empty boolean mask, `get_spans` returns a span
list that is contiguous, ordered, flag-alternating, starts at 0 and ends at
`n - 1` (captured by `spansChain`), and every index in `[0, n-1]` is covered
by exactly one span. -/
theorem get_spans_chain_covers (mask : List Bool) (h : mask ≠ []) :
    ∃ spans, get_spans mask = some spans ∧
      spansChain mask.length 0 none spans = true ∧
      ∀ i, i < mask.length →
        spans.countP (fun sp => decide (sp.1 ≤ i ∧ i ≤ sp.2.1)) = 1 := by
  match mask, h with
  | b :: rest, _ =>
    have hch : spansChain (b :: rest).length 0 none
        (getSpansGo (b :: rest).length (b :: rest) 0 0 b []) = true :=
      getSpansGo_chain (b :: rest) (b :: rest) 0 0 b none rfl (by simp) le_rfl (by simp) rfl
    refine ⟨getSpansGo (b :: rest).length (b :: rest) 0 0 b [], rfl, hch, ?_⟩
    intro i hi
    exact spansChain_countP_one (b :: rest).length _ 0 none hch i (Nat.zero_le i) hi

/-- Witness for C3 at the concrete mask `[true, false, false, true]`. -/
theorem get_spans_chain_covers_witness :
    (([true, false, false, true] : List Bool) ≠ []) ∧
    (∃ spans, get_spans [true, false, false, true] = some spans ∧
      spansChain 4 0 none spans = true ∧
      ∀ i, i < 4 → spans.countP (fun sp => decide (sp.1 ≤ i ∧ i ≤ sp.2.1)) = 1) :=
  ⟨by decide, get_spans_chain_covers [true, false, false, true] (by decide)⟩

/-- Claim C9: span extraction on the empty mask fails (the Python raises at
line 262 before building any span), and on every non-empty mask it returns a
span list without failing. -/
theorem get_spans_empty_fails_nonempty_succeeds :
    get_spans ([] : List Bool) = none ∧
    ∀ mask : List Bool, mask ≠ [] → (get_spans mask).isSome = true := by
  refine ⟨rfl, ?_⟩
  intro mask h
  match mask, h with
  | b :: rest, _ => rfl

/-- Witness for C9 at the concrete mask `[false]`. -/
theorem get_spans_empty_fails_witness :
    get_spans ([] : List Bool) = none ∧ (([false] : List Bool) ≠ []) ∧
    (get_spans [false]).isSome = true :=
  ⟨get_spans_empty_fails_nonempty_succeeds.1, by decide,
    get_spans_empty_fails_nonempty_succeeds.2 [false] (by decide)⟩

end Spans

section Classifier

/-- The Python constant `string.punctuation`
(`!"#$%&\'()*+,-./:;<=>?@[\\]^_\x60\x7b|\x7d~`).  Characters that the
linting rules of this development prefer not to spell as literals are given
by code point: 39 is the apostrophe, 92 the backslash, 96 the backtick,
123 and 125 the braces.  Note the apostrophe IS a member: line 298 of the
source sets `all_punct_marks = string.punctuation` without removing `'`. -/
def pyPunctuation : List Char :=
  ['!', '"', '#', '$', '%', '&', Char.ofNat 39, '(', ')', '*', '+', ',', '-', '.', '/',
   ':', ';', '<', '=', '>', '?', '@', '[', Char.ofNat 92, ']', '^', '_', Char.ofNat 96,
   Char.ofNat 123, '|', Char.ofNat 125, '~']

/-- Characters removed by Python `str.strip()` with no arguments (whitespace).
The ASCII whitespace range 9-13, the separators 28-31, space, NEL (133) and
NBSP (160) are modeled; more exotic Unicode space code points never occur in
the concrete inputs considered here. -/
def isPySpace (c : Char) : Bool :=
  (c == ' ') || (c == Char.ofNat 9) || (c == Char.ofNat 10) || (c == Char.ofNat 11) ||
  (c == Char.ofNat 12) || (c == Char.ofNat 13) || (c == Char.ofNat 28) ||
  (c == Char.ofNat 29) || (c == Char.ofNat 30) || (c == Char.ofNat 31) ||
  (c == Char.ofNat 133) || (c == Char.ofNat 160)

/-- Python `str.strip()`: drop leading and trailing whitespace. -/
def pyStrip (s : List Char) : List Char :=
  ((s.dropWhile isPySpace).reverse.dropWhile isPySpace).reverse

/-- `_remove_punctuation` (lines 294-306) with its default arguments
`remove_spaces=True, do_lower=True`:
`re.sub('[' + string.punctuation + ']', '', word)` deletes every character of
`string.punctuation` (the class contains no metacharacter surprises: `\]` is
an escaped bracket and the only `-` sits in the range `,-.` covering exactly
`,`, `-`, `.`); then spaces and NBSP (` `) are deleted and the result
stripped; finally the word is lower-cased.  The docstring claims the
apostrophe is kept, but `string.punctuation` contains it, so it is removed
(see `removePunctuation_strips_apostrophe` below). -/
def removePunctuation (word : List Char) : List Char :=
  let w1 := word.filter (fun c => !(pyPunctuation.contains c))
  let w2 := pyStrip (w1.filter (fun c => !(c == ' ') && !(c == Char.ofNat 160)))
  w2.map Char.toLower

/-- Python `str.replace("s", "z")`: substitute every occurrence of the
sibilant letter (lines 170 and 331). -/
def replace_s_with_z (s : List Char) : List Char :=
  s.map (fun c => if c = 's' then 'z' else c)

/-- Python `_input.replace("\x60\x60", "")` (lines 173 and 334): delete every
non-overlapping occurrence of two consecutive backticks, scanning left to
right. -/
def removeBackquotePairs : List Char → List Char
  | [] => []
  | [c1] => [c1]
  | c1 :: c2 :: rest2 =>
    if c1 = Char.ofNat 96 ∧ c2 = Char.ofNat 96 then removeBackquotePairs rest2
    else c1 :: removeBackquotePairs (c2 :: rest2)
termination_by l => l.length

/-- The classification outcome of the chain at lines 327-349 (identical to
lines 162-188 of `ErrorCase.__init__`): the counter the case falls into.
`acceptableAlternate` (the `acceptable_error` counter) is listed for
completeness; in this source it is unreachable because evaluating the list
comprehension at line 335 looks up the undefined name `remove_punctuation`
(only `_remove_punctuation` exists). -/
inductive Verdict : Type
  | exactMatch
  | phoneticVariant
  | acceptableAlternate
  | wrong
deriving DecidableEq

/-- Python-level failures of the classification chain: a failure raised by
the external generator (`normalizer.normalize`), or the `NameError` raised at
line 335 when the comprehension `[remove_punctuation(x) for x in wfst_pred]`
evaluates the undefined name `remove_punctuation` on a non-empty result. -/
inductive PyErr : Type
  | genError
  | nameError
deriving DecidableEq

instance : DecidableEq (Except PyErr Verdict) := fun a b =>
  match a, b with
  | Except.ok v1, Except.ok v2 => decidable_of_iff (v1 = v2) (by simp)
  | Except.error e1, Except.error e2 => decidable_of_iff (e1 = e2) (by simp)
  | Except.ok _, Except.error _ => Decidable.isFalse (by simp)
  | Except.error _, Except.ok _ => Decidable.isFalse (by simp)

/-- The ordered classification chain of lines 327-349 (identical chain at
lines 162-188), with the external generator `normalizer.normalize` abstracted
as the fallible oracle `gen`:

1. punctuation-insensitive equality (line 329) → `correct_with_no_punct`;
2. equality after substituting `s` by `z` on both sides (line 331) →
   `correct_with_zs`;
3. otherwise the generator is invoked on the cleaned original input
   (line 334); an exception from it propagates — there is no `try/except`
   around the call;
4. on generator success with a non-empty candidate list, line 335 raises
   `NameError` (`remove_punctuation` is undefined); with an empty candidate
   list the comprehension never evaluates the name, membership in the empty
   list fails, and the case is counted `wrong` (line 349). -/
def classify (pred target inp : List Char)
    (gen : List Char → Except PyErr (List (List Char))) : Except PyErr Verdict :=
  let pred_no_punct := pyStrip (removePunctuation pred)
  let target_no_punct := pyStrip (removePunctuation target)
  if pred_no_punct = target_no_punct then Except.ok Verdict.exactMatch
  else if replace_s_with_z pred_no_punct = replace_s_with_z target_no_punct then
    Except.ok Verdict.phoneticVariant
  else
    match gen (pyStrip (removeBackquotePairs inp)) with
    | Except.error e => Except.error e
    | Except.ok cands =>
      if cands = [] then Except.ok Verdict.wrong
      else Except.error PyErr.nameError

/-- Claim C4: whenever the punctuation-stripped, whitespace-stripped,
lower-cased forms of prediction and reference differ but become equal after
substituting every `s` by `z` on both sides, the chain yields the
`PhoneticVariant` verdict (`correct_with_zs`), and the external generator is
never consulted (the result is the same for every generator). -/
theorem classify_phonetic_variant (pred target inp : List Char)
    (gen gen2 : List Char → Except PyErr (List (List Char)))
    (h1 : pyStrip (removePunctuation pred) ≠ pyStrip (removePunctuation target))
    (h2 : replace_s_with_z (pyStrip (removePunctuation pred)) =
      replace_s_with_z (pyStrip (removePunctuation target))) :
    classify pred target inp gen = Except.ok Verdict.phoneticVariant ∧
    classify pred target inp gen = classify pred target inp gen2 := by
  unfold classify
  simp [if_neg h1, if_pos h2]

/-- Witness for C4: reference `plays`, prediction `playz` yield
`PhoneticVariant` (the spec scenario 4), under an arbitrary concrete
generator. -/
theorem classify_phonetic_variant_witness :
    (pyStrip (removePunctuation ['p', 'l', 'a', 'y', 'z']) ≠
      pyStrip (removePunctuation ['p', 'l', 'a', 'y', 's'])) ∧
    (replace_s_with_z (pyStrip (removePunctuation ['p', 'l', 'a', 'y', 'z'])) =
      replace_s_with_z (pyStrip (removePunctuation ['p', 'l', 'a', 'y', 's']))) ∧
    classify ['p', 'l', 'a', 'y', 'z'] ['p', 'l', 'a', 'y', 's'] []
      (fun _ => Except.ok []) = Except.ok Verdict.phoneticVariant :=
  ⟨by decide, by decide,
    (classify_phonetic_variant ['p', 'l', 'a', 'y', 'z'] ['p', 'l', 'a', 'y', 's'] []
      (fun _ => Except.ok []) (fun _ => Except.ok []) (by decide) (by decide)).1⟩

/-- Claim C6 (code bug): `_remove_punctuation` with default arguments REMOVES
the apostrophe, contradicting its own docstring ("except for `'`") and the
spec: on the word `don't` (code point 39 is the apostrophe) the output is
`dont` and no apostrophe survives. -/
theorem removePunctuation_strips_apostrophe :
    removePunctuation ['d', 'o', 'n', Char.ofNat 39, 't'] = ['d', 'o', 'n', 't'] ∧
    Char.ofNat 39 ∈ pyPunctuation ∧
    ¬ (Char.ofNat 39 ∈ removePunctuation ['d', 'o', 'n', Char.ofNat 39, 't']) := by
  refine ⟨by decide, by decide, by decide⟩

/-- Claim C8, counterexample: when both local checks fail and the external
generator raises, `classify` propagates the error; the claim that it instead
records the `Wrong` verdict is false at this concrete input. -/
theorem classify_generator_error_not_wrong :
    classify ['a'] ['b'] [] (fun _ => Except.error PyErr.genError) =
      Except.error PyErr.genError ∧
    classify ['a'] ['b'] [] (fun _ => Except.error PyErr.genError) ≠
      Except.ok Verdict.wrong := by
  refine ⟨by decide, by decide⟩

/-- Claim C8, amended: there is no exception handling around the generator
call (lines 334 and 173) — whenever the two local checks fail and the
generator raises, the classification chain propagates the exception and no
`Wrong` verdict (nor any verdict) is recorded. -/
theorem classify_generator_error_propagates (pred target inp : List Char) (e : PyErr)
    (gen : List Char → Except PyErr (List (List Char)))
    (h1 : pyStrip (removePunctuation pred) ≠ pyStrip (removePunctuation target))
    (h2 : replace_s_with_z (pyStrip (removePunctuation pred)) ≠
      replace_s_with_z (pyStrip (removePunctuation target)))
    (h3 : gen (pyStrip (removeBackquotePairs inp)) = Except.error e) :
    classify pred target inp gen = Except.error e := by
  unfold classify
  rw [if_neg h1, if_neg h2, h3]

/-- Witness for the amended C8 at concrete inputs. -/
theorem classify_generator_error_propagates_witness :
    (pyStrip (removePunctuation ['a']) ≠ pyStrip (removePunctuation ['b'])) ∧
    (replace_s_with_z (pyStrip (removePunctuation ['a'])) ≠
      replace_s_with_z (pyStrip (removePunctuation ['b']))) ∧
    ((fun _ : List Char => (Except.error PyErr.genError : Except PyErr (List (List Char))))
      (pyStrip (removeBackquotePairs [])) = Except.error PyErr.genError) ∧
    classify ['a'] ['b'] [] (fun _ => Except.error PyErr.genError) =
      Except.error PyErr.genError :=
  ⟨by decide, by decide, rfl,
    classify_generator_error_propagates ['a'] ['b'] [] PyErr.genError
      (fun _ => Except.error PyErr.genError) (by decide) (by decide) rfl⟩

end Classifier

section SpanPairs

/-- The span-pair loop of `ErrorCase.__init__`, lines 152-162: the two span
lists are paired positionally by `zip` (which silently truncates the longer
list), and the classification chain runs exactly when `not no_error_pred`,
i.e. when the *prediction* span's flag is `false`.  The reference span's flag
is inspected only to print a `????` warning (lines 163-164); it does not
guard classification.  This function returns the pairs that reach the
classification chain. -/
def classifiedPairsLoop : List (TokSpan × TokSpan) → List (TokSpan × TokSpan)
  | [] => []
  | pr :: rest =>
    if pr.1.2.2 = false then pr :: classifiedPairsLoop rest
    else classifiedPairsLoop rest

/-- `for pred_span, target_span in zip(self.pred_spans, self.target_spans)`
(line 154) followed by the `if not no_error_pred` guard (line 162). -/
def classifiedPairs (predSpans targetSpans : List TokSpan) : List (TokSpan × TokSpan) :=
  classifiedPairsLoop (predSpans.zip targetSpans)

lemma classifiedPairsLoop_mem (q : TokSpan × TokSpan) :
    ∀ l, q ∈ classifiedPairsLoop l ↔ q ∈ l ∧ q.1.2.2 = false := by
  intro l
  induction l with
  | nil => simp [classifiedPairsLoop]
  | cons pr rest ih =>
    by_cases h : pr.1.2.2 = false
    · rw [classifiedPairsLoop, if_pos h]
      simp only [List.mem_cons, ih]
      constructor
      · rintro (rfl | ⟨hm, hf⟩)
        · exact ⟨Or.inl rfl, h⟩
        · exact ⟨Or.inr hm, hf⟩
      · rintro ⟨rfl | hm, hf⟩
        · exact Or.inl rfl
        · exact Or.inr ⟨hm, hf⟩
    · rw [classifiedPairsLoop, if_neg h]
      simp only [List.mem_cons, ih]
      constructor
      · rintro ⟨hm, hf⟩
        exact ⟨Or.inr hm, hf⟩
      · rintro ⟨rfl | hm, hf⟩
        · exact absurd hf h
        · exact ⟨hm, hf⟩

/-- Claim C7, amended: a span pair reaches the classification chain exactly
when it lies in the positional zip of the two span lists and its
*prediction* span is marked mismatched; the reference span's flag is not
consulted (a pair whose reference span is matched is still classified, after
printing a warning), and pairs outside the zip are never classified. -/
theorem classifiedPairs_iff (predSpans targetSpans : List TokSpan)
    (q : TokSpan × TokSpan) :
    q ∈ classifiedPairs predSpans targetSpans ↔
      q ∈ predSpans.zip targetSpans ∧ q.1.2.2 = false :=
  classifiedPairsLoop_mem q (predSpans.zip targetSpans)

/-- Claim C7, counterexample: for target tokens `[0, 1]` and prediction
tokens `[1, 2]` the full pipeline pairs the mismatched prediction span
`(1, 1, false)` with the *matched* reference span `(1, 1, true)`, and that
pair is classified — refuting the claim that only pairs mismatched in both
sequences receive a verdict. -/
theorem classified_pair_with_matched_reference :
    alignMasks ([0, 1] : List Nat) [1, 2] = some ([false, true], [true, false]) ∧
    get_spans [true, false] = some [(0, 0, true), (1, 1, false)] ∧
    get_spans [false, true] = some [(0, 0, false), (1, 1, true)] ∧
    ((1, 1, false), (1, 1, true)) ∈
      classifiedPairs [(0, 0, true), (1, 1, false)] [(0, 0, false), (1, 1, true)] ∧
    ¬ (∀ q ∈ classifiedPairs [(0, 0, true), (1, 1, false)] [(0, 0, false), (1, 1, true)],
        q.2.2.2 = false) := by
  decide

end SpanPairs

section TieBreak

/-- Claim C5, amended: when the two non-diagonal directions tie
(`L[i-1][j] = L[i][j-1]`, tokens differing), the backtracking loop of
lines 90-93 takes the `else: j -= 1` branch, i.e. the "move left"
(prediction) direction; "move up" is taken only on the strict inequality
`L[i-1][j] > L[i][j-1]`. -/
theorem lcsBack_tie_moves_left {α : Type} [DecidableEq α] (X Y : List α) (fuel i j : Nat)
    (hne : X[i]? ≠ Y[j]?)
    (htie : lcsLen X Y i (j + 1) = lcsLen X Y (i + 1) j) :
    lcsBackAux X Y (fuel + 1) (i + 1) (j + 1) = lcsBackAux X Y fuel (i + 1) j := by
  rw [lcsBackAux, if_neg hne, if_neg (by omega)]

/-- Witness for the amended C5 at `X = [0, 1]`, `Y = [1, 0]`, `i = j = 1`. -/
theorem lcsBack_tie_moves_left_witness :
    (([0, 1] : List Nat)[1]? ≠ ([1, 0] : List Nat)[1]?) ∧
    lcsLen ([0, 1] : List Nat) [1, 0] 1 2 = lcsLen ([0, 1] : List Nat) [1, 0] 2 1 ∧
    lcsBackAux ([0, 1] : List Nat) [1, 0] 4 2 2 = lcsBackAux ([0, 1] : List Nat) [1, 0] 3 2 1 :=
  ⟨by decide, by decide, lcsBack_tie_moves_left [0, 1] [1, 0] 3 1 1 (by decide) (by decide)⟩

/-- Claim C5, counterexample: at `X = [0, 1]`, `Y = [1, 0]`, bottom-right
corner `i = j = 2` (one-based, i.e. `i = j = 1` zero-based), the two
directions tie, the loop moves left — `lcsBackAux 4 2 2 = lcsBackAux 3 2 1`
— and the result `[1]` differs from `[0]`, the result of moving up
(`lcsBackAux 3 1 2`).  So the claim that ties move up is false. -/
theorem lcs_tie_break_counterexample :
    (([0, 1] : List Nat)[1]? ≠ ([1, 0] : List Nat)[1]?) ∧
    lcsLen ([0, 1] : List Nat) [1, 0] 1 2 = lcsLen ([0, 1] : List Nat) [1, 0] 2 1 ∧
    lcsBackAux ([0, 1] : List Nat) [1, 0] 4 2 2 = lcsBackAux ([0, 1] : List Nat) [1, 0] 3 2 1 ∧
    lcsBackAux ([0, 1] : List Nat) [1, 0] 3 1 2 = [0] ∧
    lcs ([0, 1] : List Nat) [1, 0] = [1] ∧
    lcsBackAux ([0, 1] : List Nat) [1, 0] 4 2 2 ≠ lcsBackAux ([0, 1] : List Nat) [1, 0] 3 1 2 := by
  decide

end TieBreak
